import Mathlib

/-!
# Verification of the rotate_backup scheduling and rotation core

Shallow embedding of the backup-level decision engine and the
rotation/promotion state machine of `src/main.go` (and the near-duplicate
implementation in `src/unnamed/part_001`).

Modelling conventions:
* Timestamps are `Nat` nanoseconds since the Go zero time, in a fixed (UTC)
  location.  `time.Time.Hour`, `Minute`, `Truncate(time.Minute)` and `IsZero`
  become arithmetic on that `Nat`.
* The tier directories are a flat map `String → Option (List String)` from a
  directory path to its entry names (`none` = directory does not exist).
  `os.MkdirAll`, `os.ReadDir`, `os.Remove`, `os.Rename` and `os.Stat`
  become total operations on that map; in this model the only I/O failure
  is "does not exist".
* The ledger file system maps a file path to `none` (no file), corrupt
  bytes, or the serialized form of a record.  `encoding/json`
  marshal/unmarshal of `LastExecutionRecord` (Go standard library, external
  to this repository) is modelled as a faithful embedding: marshalling a
  record and unmarshalling the bytes yields the record back, which matches
  Go's RFC3339-nanosecond round-trip for `time.Time` wall-clock values.
* `dryRun` is `false` throughout: only the real execution path is embedded.
-/

namespace RotateBackup

/-! ## Time model -/

def nsPerMinute : Nat := 60000000000

def nsPerHour : Nat := 3600000000000

/-- `time.Time.Hour()` for a UTC timestamp in nanoseconds. -/
def goHour (t : Nat) : Nat := t / nsPerHour % 24

/-- `time.Time.Minute()` for a UTC timestamp in nanoseconds. -/
def goMinute (t : Nat) : Nat := t / nsPerMinute % 60

/-- `t.Truncate(time.Minute)` identified by its minute index. -/
def truncMinute (t : Nat) : Nat := t / nsPerMinute

/-- `time.Time.IsZero()`: the zero time is `0` nanoseconds in this model. -/
def isZeroTime (t : Nat) : Bool := t == 0

/-! ## Level classifier (`determineBestBackupLevel`, src/main.go:1105) -/

/-- Embedding of `determineBestBackupLevel`: checks the five candidate
levels in priority order (longest interval first) on the timestamp's hour
and minute, returning `(true, level)` at the first match and `(false, "")`
when no candidate matches. -/
def determineBestBackupLevel (t : Nat) : Bool × String :=
  let hour := goHour t
  let min := goMinute t
  if hour == 0 && min == 0 then (true, "1d")
  else if (hour == 0 || hour == 12) && min == 0 then (true, "12h")
  else if hour % 6 == 0 && min == 0 then (true, "6h")
  else if hour % 3 == 0 && min == 0 then (true, "3h")
  else if min == 0 || min == 30 then (true, "30m")
  else (false, "")

/-- Specification-side first-match evaluator over an ordered candidate
list of `(level, rule)` pairs. -/
def firstMatch (hour min : Nat) : List (String × (Nat → Nat → Bool)) → Bool × String
  | [] => (false, "")
  | (name, p) :: rest => if p hour min then (true, name) else firstMatch hour min rest

/-- The five candidate levels with their match rules, in the priority
order the classifier checks them (coarsest to finest). -/
def levelRules : List (String × (Nat → Nat → Bool)) :=
  [("1d", fun h m => h == 0 && m == 0),
   ("12h", fun h m => (h == 0 || h == 12) && m == 0),
   ("6h", fun h m => h % 6 == 0 && m == 0),
   ("3h", fun h m => h % 3 == 0 && m == 0),
   ("30m", fun _ m => m == 0 || m == 30)]

/-! ## Configuration and tier-directory file system -/

/-- The fields of `BackupConfig` the core logic consults.  The Go
`map[string]string` / `map[string]int` fields are modelled as total
functions (a missing key in a Go map yields the zero value). -/
structure BackupConfig where
  lastExecutionFile : String
  backupDirs : String → String
  keepVersions : String → Nat

/-- Tier-directory file system: directory path ↦ entry names
(`none` = the directory does not exist). -/
def DirFS : Type := String → Option (List String)

/-- The entries `os.ReadDir` would report (empty for a missing directory;
callers in the source treat the read failure of a missing directory by
skipping, which call sites model explicitly on `fs dir`). -/
def entriesOf (fs : DirFS) (dir : String) : List String := (fs dir).getD []

/-- `os.MkdirAll dir`: creates the directory empty if absent. -/
def mkdirAll (fs : DirFS) (dir : String) : DirFS :=
  match fs dir with
  | some _ => fs
  | none => Function.update fs dir (some [])

/-- `os.Remove (filepath.Join dir name)`; on a missing directory the
removal fails, which every call site ignores. -/
def removeFile (fs : DirFS) (dir name : String) : DirFS :=
  match fs dir with
  | some es => Function.update fs dir (some (es.erase name))
  | none => fs

/-- The `for _, old := range names { os.Remove(...) }` loop: removes the
listed names from `dir` in order, oldest first. -/
def removeFiles (fs : DirFS) (dir : String) : List String → DirFS
  | [] => fs
  | n :: rest => removeFiles (removeFile fs dir n) dir rest

/-- `os.Rename (src/name) (dst/name)`: moves one entry between
directories. -/
def renameFile (fs : DirFS) (srcDir dstDir name : String) : DirFS :=
  match fs srcDir, fs dstDir with
  | some src, some dst =>
      Function.update (Function.update fs srcDir (some (src.erase name))) dstDir
        (some (name :: dst))
  | _, _ => fs

/-- `strings.HasSuffix name ".vhdx"`: the artifact-name filter, checked
on the character list (for valid UTF-8 a byte-level suffix match against
an ASCII suffix coincides with the character-level one). -/
def isVhdx (name : String) : Bool := ".vhdx".toList.isSuffixOf name.toList

/-- Decidability of `≤` on `String` routed through the character-list
order, so that sorting reduces on concrete names (the default instance is
defined by well-founded recursion on byte iterators, which does not
evaluate by reduction). -/
instance decStrLe : DecidableRel (fun a b : String => a ≤ b) := fun a b =>
  decidable_of_iff (a.toList ≤ b.toList) String.le_iff_toList_le.symm

/-- The `names` list both rotation and promotion build: directory entries
filtered to the `.vhdx` suffix and sorted ascending (`sort.Strings`). -/
def vhdxNames (entries : List String) : List String :=
  List.insertionSort (· ≤ ·) (entries.filter isVhdx)

/-! ## Retention rotator (`rotateBackupsWithPromotion`, src/main.go:2414) -/

/-- Embedding of `rotateBackupsWithPromotion` for one level: ensure the
tier directory exists, list the `.vhdx` entries sorted by name, and if the
count exceeds the keep count delete the oldest surplus, oldest first.  In
this model `os.MkdirAll` always succeeds and a directory just created can
be read, so the two error returns of the source are unreachable; the
`Except` shape is kept from the source signature. -/
def rotateBackupsWithPromotion (cfg : BackupConfig) (fs : DirFS) (level : String) :
    Except String DirFS :=
  let dir := cfg.backupDirs level
  let keep := cfg.keepVersions level
  let fs1 := mkdirAll fs dir
  match fs1 dir with
  | none => .error "read dir"
  | some entries =>
    let names := vhdxNames entries
    if names.length > keep then
      .ok (removeFiles fs1 dir (names.take (names.length - keep)))
    else
      .ok fs1

/-! ## Tier promoter — src/main.go:2465 (`>`) and
src/unnamed/part_001:1758 (`>=`) -/

namespace Main

/-- One iteration of `promoteBackup`'s pair loop (src/main.go): ensure the
destination exists, list the source's `.vhdx` entries sorted, and when the
count strictly exceeds the keep count move the oldest entry to the
destination by rename — unless an entry of the same name already exists
there, in which case the source entry is deleted instead.  A missing
source directory skips the pair.  The `[] => fs1` branch is unreachable
(a positive count bound forces `names` nonempty). -/
def promotePair (cfg : BackupConfig) (fs : DirFS) (cur next : String) : DirFS :=
  let curDir := cfg.backupDirs cur
  let nextDir := cfg.backupDirs next
  let fs1 := mkdirAll fs nextDir
  match fs1 curDir with
  | none => fs1
  | some entries =>
    let names := vhdxNames entries
    if names.length > cfg.keepVersions cur then
      match names with
      | [] => fs1
      | old :: _ =>
        if old ∈ entriesOf fs1 nextDir then removeFile fs1 curDir old
        else renameFile fs1 curDir nextDir old
    else fs1

/-- Embedding of `promoteBackup` (src/main.go): runs the pair step over
each adjacent pair of the given level chain, threading the file system.
The last level only ever appears as a destination. -/
def promoteBackup (cfg : BackupConfig) : DirFS → List String → DirFS
  | fs, l1 :: l2 :: rest => promoteBackup cfg (promotePair cfg fs l1 l2) (l2 :: rest)
  | fs, _ => fs

end Main

namespace Part001

/-- One iteration of `promoteBackup`'s pair loop in the near-duplicate
implementation (src/unnamed/part_001): identical to `Main.promotePair`
except that the threshold test is `len(names) >= keep` instead of `>`.
With `names = []` and `keep = 0` the Go code would index `names[0]` out of
range; the `[] => fs1` branch stands in for that unreachable-with-positive-
keep-counts case. -/
def promotePair (cfg : BackupConfig) (fs : DirFS) (cur next : String) : DirFS :=
  let curDir := cfg.backupDirs cur
  let nextDir := cfg.backupDirs next
  let fs1 := mkdirAll fs nextDir
  match fs1 curDir with
  | none => fs1
  | some entries =>
    let names := vhdxNames entries
    if names.length ≥ cfg.keepVersions cur then
      match names with
      | [] => fs1
      | old :: _ =>
        if old ∈ entriesOf fs1 nextDir then removeFile fs1 curDir old
        else renameFile fs1 curDir nextDir old
    else fs1

/-- `promoteBackup` of src/unnamed/part_001, over the same pair loop. -/
def promoteBackup (cfg : BackupConfig) : DirFS → List String → DirFS
  | fs, l1 :: l2 :: rest => promoteBackup cfg (promotePair cfg fs l1 l2) (l2 :: rest)
  | fs, _ => fs

end Part001

/-! ## One scheduling cycle's rotation phase (`runBackup`, src/main.go:1395) -/

/-- The tier chain `levels` of `runBackup`. -/
def backupLevels : List String := ["30m", "3h", "6h", "12h", "1d"]

/-- The per-level rotation loop of `runBackup`: a rotate error for one
level is logged and the loop continues with the unchanged state. -/
def rotateAllLevels (cfg : BackupConfig) (fs : DirFS) (levels : List String) : DirFS :=
  levels.foldl
    (fun s lvl =>
      match rotateBackupsWithPromotion cfg s lvl with
      | .ok s1 => s1
      | .error _ => s) fs

/-- The rotation phase of one `runBackup` cycle (src/main.go): first
promotion across the whole chain, then rotation of every level. -/
def runBackupRotationPhase (cfg : BackupConfig) (fs : DirFS) : DirFS :=
  rotateAllLevels cfg (Main.promoteBackup cfg fs backupLevels) backupLevels

/-! ## Execution ledger (src/main.go:1214–1267) -/

/-- `LastExecutionRecord`: the Go `map[string]time.Time` as an association
list with map-lookup semantics (`List.lookup`). -/
structure LastExecutionRecord where
  lastExecutions : List (String × Nat)
deriving DecidableEq

/-- Content of the ledger file: either bytes `encoding/json` cannot parse
into a `LastExecutionRecord`, or the serialization of a record.  The
marshal/unmarshal pair of the Go standard library is modelled as a
faithful embedding of records into bytes. -/
inductive FileData where
  | corrupt
  | ledger (rec : LastExecutionRecord)
deriving DecidableEq

/-- Ledger file system: file path ↦ its content, `none` = no file. -/
def LedgerFS : Type := String → Option FileData

/-- The error cases of the ledger read path: `os.ReadFile` failing with
`os.IsNotExist`, or `json.Unmarshal` failing. -/
inductive LoadErr where
  | notExist
  | parseError
deriving DecidableEq

/-- Embedding of `loadLastExecutionRecord` (src/main.go:1236): reads the
file — a missing file is returned as the read error, not as an empty
record — then unmarshals, propagating a parse failure. -/
def loadLastExecutionRecord (fs : LedgerFS) (filePath : String) :
    Except LoadErr LastExecutionRecord :=
  match fs filePath with
  | none => .error .notExist
  | some .corrupt => .error .parseError
  | some (.ledger rec) => .ok rec

/-- Embedding of `saveLastExecutionRecord` (src/main.go:1255): creates the
containing directory, marshals the record and writes the file wholesale
(`os.WriteFile` truncates, so prior content is fully replaced). -/
def saveLastExecutionRecord (fs : LedgerFS) (filePath : String)
    (record : LastExecutionRecord) : LedgerFS :=
  Function.update fs filePath (some (.ledger record))

/-- The Go map update `record.LastExecutions[level] = executionTime`. -/
def setExecution (record : LastExecutionRecord) (level : String) (t : Nat) :
    LastExecutionRecord :=
  ⟨(level, t) :: record.lastExecutions.filter (fun p => p.1 ≠ level)⟩

/-- Embedding of `recordLastExecution` (src/main.go:1214): a no-op when no
ledger file is configured; otherwise read-modify-write, treating a missing
file as a fresh empty record and propagating any other read error. -/
def recordLastExecution (cfg : BackupConfig) (fs : LedgerFS) (level : String)
    (executionTime : Nat) : Except LoadErr LedgerFS :=
  if cfg.lastExecutionFile = "" then .ok fs
  else
    match loadLastExecutionRecord fs cfg.lastExecutionFile with
    | .error .notExist =>
        .ok (saveLastExecutionRecord fs cfg.lastExecutionFile
          (setExecution ⟨[]⟩ level executionTime))
    | .error e => .error e
    | .ok record =>
        .ok (saveLastExecutionRecord fs cfg.lastExecutionFile
          (setExecution record level executionTime))

/-! ## Scheduling decision (`shouldExecuteBackup`, src/main.go:1147) -/

/-- Embedding of `shouldExecuteBackup`: classify the timestamp; when no
level is due return `(false, "")` without touching the ledger.  Otherwise,
with a configured ledger file, a recorded non-zero last execution for the
level in the same minute suppresses the run; a missing ledger file, a
missing or zero entry, or a different minute permits it.  A ledger read
error other than not-exist aborts the decision. -/
def shouldExecuteBackup (cfg : BackupConfig) (fs : LedgerFS) (currentTime : Nat) :
    Except LoadErr (Bool × String) :=
  match determineBestBackupLevel currentTime with
  | (false, _) => .ok (false, "")
  | (true, level) =>
    if cfg.lastExecutionFile = "" then .ok (true, level)
    else
      match loadLastExecutionRecord fs cfg.lastExecutionFile with
      | .error .notExist => .ok (true, level)
      | .error e => .error e
      | .ok record =>
        match record.lastExecutions.lookup level with
        | none => .ok (true, level)
        | some lastExecution =>
          if isZeroTime lastExecution then .ok (true, level)
          else if truncMinute currentTime = truncMinute lastExecution then .ok (false, "")
          else .ok (true, level)

end RotateBackup

namespace RotateBackup

/-- C1: the classifier is the first-match evaluation of the five ordered
candidate rules on hour and minute only, its level output is always one of
the five levels or empty, and the six coverage examples hold
(timestamps are on day 0: 00:00, 12:00, 06:00, 09:00, 09:30, 09:15). -/
theorem C1_classifier_first_match :
    (∀ t, determineBestBackupLevel t = firstMatch (goHour t) (goMinute t) levelRules) ∧
    (∀ t, (determineBestBackupLevel t).2 ∈ (["1d", "12h", "6h", "3h", "30m", ""] : List String)) ∧
    determineBestBackupLevel 0 = (true, "1d") ∧
    determineBestBackupLevel 43200000000000 = (true, "12h") ∧
    determineBestBackupLevel 21600000000000 = (true, "6h") ∧
    determineBestBackupLevel 32400000000000 = (true, "3h") ∧
    determineBestBackupLevel 34200000000000 = (true, "30m") ∧
    determineBestBackupLevel 33300000000000 = (false, "") := by
  refine ⟨fun t => rfl, fun t => ?_, by decide, by decide, by decide, by decide, by decide, by decide⟩
  unfold determineBestBackupLevel
  dsimp only
  split
  · simp
  · split
    · simp
    · split
      · simp
      · split
        · simp
        · split <;> simp

end RotateBackup

namespace RotateBackup

/-- C7: with an empty `LastExecutionFile`, `recordLastExecution` is a
no-op returning no error, and `shouldExecuteBackup` at any matching
timestamp returns `(true, level)` for every ledger state, i.e. regardless
of previously recorded executions. -/
theorem C7_disabled_ledger (cfg : BackupConfig) (fs : LedgerFS) (level : String)
    (t : Nat) (hfile : cfg.lastExecutionFile = "") :
    recordLastExecution cfg fs level t = .ok fs ∧
    (determineBestBackupLevel t = (true, level) →
      shouldExecuteBackup cfg fs t = .ok (true, level)) := by
  constructor
  · simp [recordLastExecution, hfile]
  · intro hlev
    simp [shouldExecuteBackup, hlev, hfile]

/-- Witness for C7 at 09:30 with a ledger state that already records a
09:30 execution for `30m`: the run is still permitted. -/
theorem C7_disabled_ledger_witness :
    recordLastExecution ⟨"", fun l => "/b/" ++ l, fun _ => 2⟩
        (fun _ => some (.ledger ⟨[("30m", 34200000000000)]⟩)) "30m" 34200000000000 =
      .ok (fun _ => some (.ledger ⟨[("30m", 34200000000000)]⟩)) ∧
    shouldExecuteBackup ⟨"", fun l => "/b/" ++ l, fun _ => 2⟩
        (fun _ => some (.ledger ⟨[("30m", 34200000000000)]⟩)) 34200000000000 =
      .ok (true, "30m") :=
  ⟨(C7_disabled_ledger ⟨"", fun l => "/b/" ++ l, fun _ => 2⟩
      (fun _ => some (.ledger ⟨[("30m", 34200000000000)]⟩)) "30m" 34200000000000 rfl).1,
   (C7_disabled_ledger ⟨"", fun l => "/b/" ++ l, fun _ => 2⟩
      (fun _ => some (.ledger ⟨[("30m", 34200000000000)]⟩)) "30m" 34200000000000 rfl).2
     (by decide)⟩

end RotateBackup

namespace RotateBackup

/-- C3: at a matching timestamp, with a configured ledger file whose
record holds a non-zero last execution for the classified level,
`shouldExecuteBackup` suppresses the run exactly when the current and
recorded timestamps truncate to the same minute, and permits it with the
level otherwise; at a non-matching timestamp it returns `(false, "")` for
every ledger state, reading nothing. -/
theorem C3_duplicate_suppression (cfg : BackupConfig) (fs : LedgerFS) (t : Nat)
    (level : String) (record : LastExecutionRecord) (last : Nat)
    (hlev : determineBestBackupLevel t = (true, level))
    (hfile : cfg.lastExecutionFile ≠ "")
    (hled : fs cfg.lastExecutionFile = some (.ledger record))
    (hlook : record.lastExecutions.lookup level = some last)
    (hnz : last ≠ 0) :
    (shouldExecuteBackup cfg fs t = .ok (false, "") ↔ truncMinute t = truncMinute last) ∧
    (shouldExecuteBackup cfg fs t = .ok (true, level) ↔ truncMinute t ≠ truncMinute last) ∧
    (∀ t2 fs2, (determineBestBackupLevel t2).1 = false →
      shouldExecuteBackup cfg fs2 t2 = .ok (false, "")) := by
  have hbase : shouldExecuteBackup cfg fs t =
      if truncMinute t = truncMinute last then .ok (false, "") else .ok (true, level) := by
    simp [shouldExecuteBackup, hlev, hfile, loadLastExecutionRecord, hled, hlook,
      isZeroTime, hnz]
  refine ⟨?_, ?_, ?_⟩
  · rw [hbase]
    by_cases h : truncMinute t = truncMinute last <;> simp [h]
  · rw [hbase]
    by_cases h : truncMinute t = truncMinute last <;> simp [h]
  · intro t2 fs2 hfalse
    cases hd : determineBestBackupLevel t2 with
    | mk b s =>
      cases b with
      | false => simp [shouldExecuteBackup, hd]
      | true => rw [hd] at hfalse; simp at hfalse

end RotateBackup

namespace RotateBackup

/-- Witness for C3 at 09:30:15 against a ledger recording a 09:30:00
execution of `30m`. -/
theorem C3_duplicate_suppression_witness :
    (shouldExecuteBackup ⟨"/led.json", fun l => "/b/" ++ l, fun _ => 2⟩
        (fun p => if p = "/led.json" then some (.ledger ⟨[("30m", 34200000000000)]⟩) else none)
        34215000000000 = .ok (false, "") ↔
      truncMinute 34215000000000 = truncMinute 34200000000000) ∧
    (shouldExecuteBackup ⟨"/led.json", fun l => "/b/" ++ l, fun _ => 2⟩
        (fun p => if p = "/led.json" then some (.ledger ⟨[("30m", 34200000000000)]⟩) else none)
        34215000000000 = .ok (true, "30m") ↔
      truncMinute 34215000000000 ≠ truncMinute 34200000000000) ∧
    (∀ t2 fs2, (determineBestBackupLevel t2).1 = false →
      shouldExecuteBackup ⟨"/led.json", fun l => "/b/" ++ l, fun _ => 2⟩ fs2 t2 =
        .ok (false, "")) :=
  C3_duplicate_suppression ⟨"/led.json", fun l => "/b/" ++ l, fun _ => 2⟩
    (fun p => if p = "/led.json" then some (.ledger ⟨[("30m", 34200000000000)]⟩) else none)
    34215000000000 "30m" ⟨[("30m", 34200000000000)]⟩ 34200000000000
    (by decide) (by decide) (by decide) (by decide) (by decide)

end RotateBackup

namespace RotateBackup

/-- C6 counterexample: on a file system with no persisted record,
`loadLastExecutionRecord` returns the not-exist read error — in
particular not the empty mapping the claim asserts. -/
theorem C6_load_missing_counterexample :
    loadLastExecutionRecord (fun _ => none) "/led.json" = .error .notExist ∧
    (.error .notExist : Except LoadErr LastExecutionRecord) ≠ .ok ⟨[]⟩ := by
  exact ⟨rfl, by simp⟩

/-- C6 amended: when no persisted record exists `loadLastExecutionRecord`
returns the not-exist read error (its callers treat that error as an
empty record: `shouldExecuteBackup` still permits a matching run and
`recordLastExecution` starts from a fresh record), and it fails with a
parse error exactly when a persisted record exists but cannot be
parsed. -/
theorem C6_load_error_amended (fs : LedgerFS) (cfg : BackupConfig)
    (level : String) (t : Nat)
    (hne : cfg.lastExecutionFile ≠ "")
    (hmiss : fs cfg.lastExecutionFile = none)
    (hlev : determineBestBackupLevel t = (true, level)) :
    loadLastExecutionRecord fs cfg.lastExecutionFile = .error .notExist ∧
    (∀ fs2 : LedgerFS, ∀ path,
      loadLastExecutionRecord fs2 path = .error .parseError ↔ fs2 path = some .corrupt) ∧
    shouldExecuteBackup cfg fs t = .ok (true, level) ∧
    recordLastExecution cfg fs level t =
      .ok (saveLastExecutionRecord fs cfg.lastExecutionFile (setExecution ⟨[]⟩ level t)) := by
  refine ⟨?_, ?_, ?_, ?_⟩
  · simp [loadLastExecutionRecord, hmiss]
  · intro fs2 path
    cases h : fs2 path with
    | none => simp [loadLastExecutionRecord, h]
    | some d => cases d <;> simp [loadLastExecutionRecord, h]
  · simp [shouldExecuteBackup, hlev, hne, loadLastExecutionRecord, hmiss]
  · simp [recordLastExecution, hne, loadLastExecutionRecord, hmiss]

/-- Witness for C6 at 09:30 with an empty file system and the path
`/led.json`. -/
theorem C6_load_error_amended_witness :
    loadLastExecutionRecord (fun _ => none) "/led.json" = .error .notExist ∧
    (∀ fs2 : LedgerFS, ∀ path,
      loadLastExecutionRecord fs2 path = .error .parseError ↔ fs2 path = some .corrupt) ∧
    shouldExecuteBackup ⟨"/led.json", fun l => "/b/" ++ l, fun _ => 2⟩ (fun _ => none)
      34200000000000 = .ok (true, "30m") ∧
    recordLastExecution ⟨"/led.json", fun l => "/b/" ++ l, fun _ => 2⟩ (fun _ => none)
      "30m" 34200000000000 =
      .ok (saveLastExecutionRecord (fun _ => none) "/led.json"
        (setExecution ⟨[]⟩ "30m" 34200000000000)) :=
  C6_load_error_amended (fun _ => none) ⟨"/led.json", fun l => "/b/" ++ l, fun _ => 2⟩
    "30m" 34200000000000 (by decide) rfl (by decide)

/-- C8: saving an arbitrary record and loading it back reproduces the
record's timestamps exactly; the save fully overwrites whatever was at
the path before (the resulting content is the serialization of the new
record for every prior file-system state) and touches no other path. -/
theorem C8_ledger_round_trip (fs : LedgerFS) (path : String)
    (r : LastExecutionRecord) :
    loadLastExecutionRecord (saveLastExecutionRecord fs path r) path = .ok r ∧
    saveLastExecutionRecord fs path r path = some (.ledger r) ∧
    (∀ q, q ≠ path → saveLastExecutionRecord fs path r q = fs q) := by
  refine ⟨?_, ?_, fun q hq => ?_⟩
  · simp [loadLastExecutionRecord, saveLastExecutionRecord]
  · simp [saveLastExecutionRecord]
  · simp [saveLastExecutionRecord, Function.update_noteq hq]

end RotateBackup

namespace RotateBackup

theorem mkdirAll_of_some (fs : DirFS) (d : String) (es : List String)
    (h : fs d = some es) : mkdirAll fs d = fs := by
  unfold mkdirAll
  rw [h]

theorem mkdirAll_of_none (fs : DirFS) (d : String) (h : fs d = none) :
    mkdirAll fs d = Function.update fs d (some []) := by
  unfold mkdirAll
  rw [h]

theorem mkdirAll_apply_self (fs : DirFS) (d : String) :
    mkdirAll fs d d = some (entriesOf fs d) := by
  unfold mkdirAll entriesOf
  cases h : fs d with
  | some es => simp [h]
  | none => simp [Function.update_same]

theorem mkdirAll_apply_ne (fs : DirFS) {d d' : String} (h : d' ≠ d) :
    mkdirAll fs d d' = fs d' := by
  unfold mkdirAll
  cases hfs : fs d with
  | some es => rfl
  | none => exact Function.update_noteq h _ _

theorem removeFile_apply_ne (fs : DirFS) {dir d : String} (n : String) (h : d ≠ dir) :
    removeFile fs dir n d = fs d := by
  unfold removeFile
  cases hfs : fs dir with
  | none => rfl
  | some es => exact Function.update_noteq h _ _

theorem removeFile_apply_self (fs : DirFS) (dir n : String) (es : List String)
    (h : fs dir = some es) :
    removeFile fs dir n dir = some (es.erase n) := by
  unfold removeFile
  rw [h]
  exact Function.update_same _ _ _

theorem removeFiles_apply_ne {dir d : String} (h : d ≠ dir) (del : List String) :
    ∀ fs : DirFS, removeFiles fs dir del d = fs d := by
  induction del with
  | nil => intro fs; rfl
  | cons n rest ih =>
    intro fs
    rw [removeFiles, ih, removeFile_apply_ne fs n h]

theorem removeFiles_apply_self (dir : String) (del : List String) :
    ∀ (fs : DirFS) (es : List String), fs dir = some es →
    removeFiles fs dir del dir = some (del.foldl (fun l n => l.erase n) es) := by
  induction del with
  | nil => intro fs es h; simpa using h
  | cons n rest ih =>
    intro fs es h
    rw [removeFiles, List.foldl_cons]
    exact ih _ _ (removeFile_apply_self fs dir n es h)

theorem mem_foldl_erase_of_ne {x : String} (del : List String)
    (hx : ∀ n ∈ del, x ≠ n) :
    ∀ es : List String, (x ∈ del.foldl (fun l n => l.erase n) es ↔ x ∈ es) := by
  induction del with
  | nil => intro es; simp
  | cons n rest ih =>
    intro es
    rw [List.foldl_cons]
    exact (ih (fun m hm => hx m (List.mem_cons_of_mem _ hm)) _).trans
      (List.mem_erase_of_ne (hx n (List.mem_cons_self _ _)))

theorem nodup_foldl_erase (del : List String) :
    ∀ es : List String, es.Nodup → (del.foldl (fun l n => l.erase n) es).Nodup := by
  induction del with
  | nil => intro es h; simpa using h
  | cons n rest ih =>
    intro es h
    rw [List.foldl_cons]
    exact ih _ (h.erase n)

theorem mem_foldl_erase_iff {x : String} (del : List String) :
    ∀ es : List String, es.Nodup →
      (x ∈ del.foldl (fun l n => l.erase n) es ↔ x ∈ es ∧ x ∉ del) := by
  induction del with
  | nil => intro es _; simp
  | cons n rest ih =>
    intro es h
    rw [List.foldl_cons, ih _ (h.erase n), h.mem_erase_iff]
    simp only [List.mem_cons, not_or]
    constructor
    · rintro ⟨⟨hxn, hxe⟩, hxr⟩
      exact ⟨hxe, hxn, hxr⟩
    · rintro ⟨hxe, hxn, hxr⟩
      exact ⟨⟨hxn, hxe⟩, hxr⟩

theorem mem_vhdxNames {x : String} (es : List String) :
    x ∈ vhdxNames es ↔ isVhdx x = true ∧ x ∈ es := by
  unfold vhdxNames
  rw [(List.perm_insertionSort _ _).mem_iff, List.mem_filter]
  exact and_comm

theorem vhdxNames_nodup (es : List String) (h : es.Nodup) : (vhdxNames es).Nodup :=
  ((List.perm_insertionSort _ _).nodup_iff).mpr (h.filter _)

theorem vhdxNames_sorted (es : List String) : (vhdxNames es).Sorted (· ≤ ·) :=
  List.sorted_insertionSort _ _

theorem sorted_drop {l : List String} (h : l.Sorted (· ≤ ·)) (k : Nat) :
    (l.drop k).Sorted (· ≤ ·) :=
  h.sublist (List.drop_sublist k l)

theorem mem_drop_iff_of_nodup {l : List String} (h : l.Nodup) (k : Nat) {x : String} :
    x ∈ l.drop k ↔ x ∈ l ∧ x ∉ l.take k := by
  have hsplit := List.take_append_drop k l
  have hnd : (l.take k ++ l.drop k).Nodup := by rw [hsplit]; exact h
  rw [List.nodup_append] at hnd
  constructor
  · intro hx
    refine ⟨?_, fun hm => hnd.2.2 hm hx⟩
    rw [← hsplit]
    exact List.mem_append_right _ hx
  · rintro ⟨hx, hnt⟩
    rw [← hsplit] at hx
    rcases List.mem_append.mp hx with h1 | h2
    · exact absurd h1 hnt
    · exact h2

end RotateBackup

namespace RotateBackup

theorem vhdx_after_removal (entries : List String) (hnd : entries.Nodup)
    (k : Nat) :
    vhdxNames ((vhdxNames entries).take k |>.foldl (fun l n => l.erase n) entries) =
      (vhdxNames entries).drop k := by
  set names := vhdxNames entries with hnames
  have hnamesnd : names.Nodup := vhdxNames_nodup entries hnd
  apply List.eq_of_perm_of_sorted _ (vhdxNames_sorted _) (sorted_drop (vhdxNames_sorted entries) k)
  rw [List.perm_ext_iff_of_nodup
    (vhdxNames_nodup _ (nodup_foldl_erase _ _ hnd))
    (hnamesnd.sublist (List.drop_sublist _ _))]
  intro x
  rw [mem_vhdxNames, mem_foldl_erase_iff _ _ hnd, mem_drop_iff_of_nodup hnamesnd]
  rw [hnames, mem_vhdxNames]
  exact and_assoc.symm

/-- C5: for a tier directory holding `N` sorted `.vhdx` artifacts with
`N > keepCount`, `rotateBackupsWithPromotion` succeeds and deletes exactly
the `N - keepCount` lexicographically smallest names (processed oldest
first), leaving exactly the `keepCount` highest names and touching no
other directory; with `N ≤ keepCount` it deletes nothing; and a missing
tier directory is created empty without an error. -/
theorem C5_rotation_correctness (cfg : BackupConfig) (fs : DirFS) (level : String) :
    (∀ entries, fs (cfg.backupDirs level) = some entries → entries.Nodup →
      ((vhdxNames entries).length > cfg.keepVersions level →
        ∃ fs2, rotateBackupsWithPromotion cfg fs level = .ok fs2 ∧
          vhdxNames (entriesOf fs2 (cfg.backupDirs level)) =
            (vhdxNames entries).drop
              ((vhdxNames entries).length - cfg.keepVersions level) ∧
          (vhdxNames (entriesOf fs2 (cfg.backupDirs level))).length =
            cfg.keepVersions level ∧
          (∀ x ∈ (vhdxNames entries).take
              ((vhdxNames entries).length - cfg.keepVersions level),
            x ∉ entriesOf fs2 (cfg.backupDirs level)) ∧
          (∀ d, d ≠ cfg.backupDirs level → fs2 d = fs d)) ∧
      ((vhdxNames entries).length ≤ cfg.keepVersions level →
        rotateBackupsWithPromotion cfg fs level = .ok fs)) ∧
    (fs (cfg.backupDirs level) = none →
      rotateBackupsWithPromotion cfg fs level =
        .ok (Function.update fs (cfg.backupDirs level) (some []))) := by
  constructor
  · intro entries hdir hnd
    have hmk : mkdirAll fs (cfg.backupDirs level) = fs := mkdirAll_of_some _ _ _ hdir
    constructor
    · intro hgt
      refine ⟨removeFiles fs (cfg.backupDirs level)
        ((vhdxNames entries).take ((vhdxNames entries).length - cfg.keepVersions level)),
        ?_, ?_, ?_, ?_, ?_⟩
      · unfold rotateBackupsWithPromotion
        dsimp only
        rw [hmk, hdir]
        dsimp only
        rw [if_pos hgt]
      · have hself := removeFiles_apply_self (cfg.backupDirs level)
          ((vhdxNames entries).take ((vhdxNames entries).length - cfg.keepVersions level))
          fs entries hdir
        unfold entriesOf
        rw [hself]
        simpa using vhdx_after_removal entries hnd _
      · have hself := removeFiles_apply_self (cfg.backupDirs level)
          ((vhdxNames entries).take ((vhdxNames entries).length - cfg.keepVersions level))
          fs entries hdir
        unfold entriesOf
        rw [hself]
        simp only [Option.getD_some]
        rw [vhdx_after_removal entries hnd _, List.length_drop]
        omega
      · intro x hx
        have hself := removeFiles_apply_self (cfg.backupDirs level)
          ((vhdxNames entries).take ((vhdxNames entries).length - cfg.keepVersions level))
          fs entries hdir
        unfold entriesOf
        rw [hself]
        simp only [Option.getD_some]
        rw [mem_foldl_erase_iff _ _ hnd]
        rintro ⟨-, hnot⟩
        exact hnot hx
      · intro d hd
        exact removeFiles_apply_ne hd _ fs
    · intro hle
      unfold rotateBackupsWithPromotion
      dsimp only
      rw [hmk, hdir]
      dsimp only
      rw [if_neg (by omega)]
  · intro hnone
    have hmk : mkdirAll fs (cfg.backupDirs level) =
        Function.update fs (cfg.backupDirs level) (some []) :=
      mkdirAll_of_none _ _ hnone
    unfold rotateBackupsWithPromotion
    dsimp only
    rw [hmk, Function.update_same]
    dsimp only
    simp [vhdxNames]

end RotateBackup

namespace RotateBackup

/-- Witness for C5: three artifacts, keep count 2 — the two highest names
remain, the smallest is deleted, other directories untouched. -/
theorem C5_rotation_correctness_witness :
    ∃ fs2,
      rotateBackupsWithPromotion ⟨"", fun l => "/b/" ++ l, fun _ => 2⟩
          (fun d => if d = "/b/" ++ "30m" then some ["a1.vhdx", "a2.vhdx", "a3.vhdx"]
            else some []) "30m" = .ok fs2 ∧
      vhdxNames (entriesOf fs2 ("/b/" ++ "30m")) =
        (vhdxNames ["a1.vhdx", "a2.vhdx", "a3.vhdx"]).drop
          ((vhdxNames ["a1.vhdx", "a2.vhdx", "a3.vhdx"]).length - 2) ∧
      (vhdxNames (entriesOf fs2 ("/b/" ++ "30m"))).length = 2 ∧
      (∀ x ∈ (vhdxNames ["a1.vhdx", "a2.vhdx", "a3.vhdx"]).take
          ((vhdxNames ["a1.vhdx", "a2.vhdx", "a3.vhdx"]).length - 2),
        x ∉ entriesOf fs2 ("/b/" ++ "30m")) ∧
      (∀ d, d ≠ "/b/" ++ "30m" →
        fs2 d = (fun d => if d = "/b/" ++ "30m" then some ["a1.vhdx", "a2.vhdx", "a3.vhdx"]
          else some []) d) :=
  ((C5_rotation_correctness ⟨"", fun l => "/b/" ++ l, fun _ => 2⟩
      (fun d => if d = "/b/" ++ "30m" then some ["a1.vhdx", "a2.vhdx", "a3.vhdx"]
        else some []) "30m").1
    ["a1.vhdx", "a2.vhdx", "a3.vhdx"] (by decide) (by decide)).1 (by decide)

end RotateBackup

namespace RotateBackup

theorem mem_entriesOf_mkdirAll (fs : DirFS) (d' d x : String) :
    x ∈ entriesOf (mkdirAll fs d') d ↔ x ∈ entriesOf fs d := by
  unfold mkdirAll entriesOf
  cases h : fs d' with
  | some es => exact Iff.rfl
  | none =>
    dsimp only
    by_cases hd : d = d'
    · subst hd
      rw [Function.update_same, h]
      exact Iff.rfl
    · rw [Function.update_noteq hd]

theorem mem_entriesOf_removeFile (fs : DirFS) (dir n d x : String) (hx : x ≠ n) :
    x ∈ entriesOf (removeFile fs dir n) d ↔ x ∈ entriesOf fs d := by
  unfold removeFile entriesOf
  cases h : fs dir with
  | none => exact Iff.rfl
  | some es =>
    dsimp only
    by_cases hd : d = dir
    · subst hd
      rw [Function.update_same, h]
      simpa using List.mem_erase_of_ne hx
    · rw [Function.update_noteq hd]

theorem mem_entriesOf_removeFiles (dir d x : String) (del : List String)
    (hdel : ∀ n ∈ del, x ≠ n) :
    ∀ fs : DirFS, x ∈ entriesOf (removeFiles fs dir del) d ↔ x ∈ entriesOf fs d := by
  induction del with
  | nil => intro fs; exact Iff.rfl
  | cons n rest ih =>
    intro fs
    rw [removeFiles]
    exact (ih (fun m hm => hdel m (List.mem_cons_of_mem _ hm)) _).trans
      (mem_entriesOf_removeFile fs dir n d x (hdel n (List.mem_cons_self _ _)))

theorem mem_entriesOf_renameFile (fs : DirFS) (c nx nm d x : String) (hx : x ≠ nm) :
    x ∈ entriesOf (renameFile fs c nx nm) d ↔ x ∈ entriesOf fs d := by
  unfold renameFile entriesOf
  cases h1 : fs c with
  | none => exact Iff.rfl
  | some src =>
    cases h2 : fs nx with
    | none => exact Iff.rfl
    | some dst =>
      dsimp only
      by_cases hd : d = nx
      · subst hd
        rw [Function.update_same, h2]
        simp [List.mem_cons, hx]
      · rw [Function.update_noteq hd]
        by_cases hc : d = c
        · subst hc
          rw [Function.update_same, h1]
          simpa using List.mem_erase_of_ne hx
        · rw [Function.update_noteq hc]

theorem head_vhdxNames_isVhdx {entries : List String} {old : String} {rest : List String}
    (h : vhdxNames entries = old :: rest) : isVhdx old = true :=
  ((mem_vhdxNames entries).mp (h ▸ List.mem_cons_self old rest)).1

end RotateBackup

namespace RotateBackup

theorem mem_entriesOf_promotePair_main (cfg : BackupConfig) (fs : DirFS)
    (cur next d x : String) (hx : isVhdx x = false) :
    x ∈ entriesOf (Main.promotePair cfg fs cur next) d ↔ x ∈ entriesOf fs d := by
  have base := mem_entriesOf_mkdirAll fs (cfg.backupDirs next) d x
  unfold Main.promotePair
  dsimp only
  split
  · exact base
  · split
    · split
      · exact base
      · rename_i old rest hnames
        have hold : isVhdx old = true := head_vhdxNames_isVhdx hnames
        have hxo : x ≠ old := by
          rintro rfl
          rw [hold] at hx
          exact Bool.noConfusion hx
        split
        · exact (mem_entriesOf_removeFile _ _ _ _ _ hxo).trans base
        · exact (mem_entriesOf_renameFile _ _ _ _ _ _ hxo).trans base
    · exact base

theorem mem_entriesOf_promotePair_p1 (cfg : BackupConfig) (fs : DirFS)
    (cur next d x : String) (hx : isVhdx x = false) :
    x ∈ entriesOf (Part001.promotePair cfg fs cur next) d ↔ x ∈ entriesOf fs d := by
  have base := mem_entriesOf_mkdirAll fs (cfg.backupDirs next) d x
  unfold Part001.promotePair
  dsimp only
  split
  · exact base
  · split
    · split
      · exact base
      · rename_i old rest hnames
        have hold : isVhdx old = true := head_vhdxNames_isVhdx hnames
        have hxo : x ≠ old := by
          rintro rfl
          rw [hold] at hx
          exact Bool.noConfusion hx
        split
        · exact (mem_entriesOf_removeFile _ _ _ _ _ hxo).trans base
        · exact (mem_entriesOf_renameFile _ _ _ _ _ _ hxo).trans base
    · exact base

theorem mem_entriesOf_promoteBackup_main (cfg : BackupConfig) (x : String)
    (hx : isVhdx x = false) :
    ∀ (levels : List String) (fs : DirFS) (d : String),
      x ∈ entriesOf (Main.promoteBackup cfg fs levels) d ↔ x ∈ entriesOf fs d := by
  intro levels
  induction levels with
  | nil => intro fs d; exact Iff.rfl
  | cons l1 rest ih =>
    intro fs d
    cases rest with
    | nil => exact Iff.rfl
    | cons l2 rest2 =>
      rw [Main.promoteBackup]
      exact (ih _ _).trans (mem_entriesOf_promotePair_main cfg fs l1 l2 d x hx)

theorem rotate_never_errors (cfg : BackupConfig) (fs : DirFS) (level : String) :
    ∃ fs2, rotateBackupsWithPromotion cfg fs level = .ok fs2 := by
  unfold rotateBackupsWithPromotion
  dsimp only
  rw [mkdirAll_apply_self]
  dsimp only
  split
  · exact ⟨_, rfl⟩
  · exact ⟨_, rfl⟩

theorem mem_entriesOf_rotate (cfg : BackupConfig) (fs fs2 : DirFS) (level x : String)
    (hx : isVhdx x = false)
    (hok : rotateBackupsWithPromotion cfg fs level = .ok fs2) :
    ∀ d, x ∈ entriesOf fs2 d ↔ x ∈ entriesOf fs d := by
  intro d
  have base := mem_entriesOf_mkdirAll fs (cfg.backupDirs level) d x
  unfold rotateBackupsWithPromotion at hok
  dsimp only at hok
  rw [mkdirAll_apply_self] at hok
  dsimp only at hok
  split at hok
  · obtain rfl := Except.ok.inj hok
    have hdel : ∀ n ∈ (vhdxNames (entriesOf fs (cfg.backupDirs level))).take
        ((vhdxNames (entriesOf fs (cfg.backupDirs level))).length -
          cfg.keepVersions level), x ≠ n := by
      intro n hn
      have hnv : isVhdx n = true :=
        ((mem_vhdxNames _).mp (List.mem_of_mem_take hn)).1
      rintro rfl
      rw [hnv] at hx
      exact Bool.noConfusion hx
    exact (mem_entriesOf_removeFiles _ _ _ _ hdel _).trans base
  · obtain rfl := Except.ok.inj hok
    exact base

end RotateBackup

namespace RotateBackup

theorem mem_entriesOf_rotateAll (cfg : BackupConfig) (x : String)
    (hx : isVhdx x = false) :
    ∀ (levels : List String) (fs : DirFS) (d : String),
      x ∈ entriesOf (rotateAllLevels cfg fs levels) d ↔ x ∈ entriesOf fs d := by
  intro levels
  induction levels with
  | nil => intro fs d; exact Iff.rfl
  | cons l rest ih =>
    intro fs d
    unfold rotateAllLevels
    rw [List.foldl_cons]
    obtain ⟨fs2, hfs2⟩ := rotate_never_errors cfg fs l
    have hstep :
        (match rotateBackupsWithPromotion cfg fs l with
          | .ok s1 => s1
          | .error _ => fs) = fs2 := by rw [hfs2]
    rw [hstep]
    exact (ih fs2 d).trans (mem_entriesOf_rotate cfg fs fs2 l x hx hfs2 d)

theorem mem_entriesOf_cycle (cfg : BackupConfig) (x : String)
    (hx : isVhdx x = false) (fs : DirFS) (d : String) :
    x ∈ entriesOf (runBackupRotationPhase cfg fs) d ↔ x ∈ entriesOf fs d := by
  unfold runBackupRotationPhase
  exact (mem_entriesOf_rotateAll cfg x hx backupLevels _ d).trans
    (mem_entriesOf_promoteBackup_main cfg x hx backupLevels fs d)

/-- C10: rotation and promotion only ever count, delete or move
`.vhdx`-suffixed names — for every non-`.vhdx` entry `e`, membership of
`e` in every directory is unchanged by a rotate call, by either promotion
implementation's pair step, and by a whole promote-then-rotate cycle; and
a tier whose `.vhdx` count is within its keep count has nothing deleted
even if its total entry count is larger. -/
theorem C10_non_vhdx_frame (cfg : BackupConfig) (e : String)
    (he : isVhdx e = false) :
    (∀ fs level fs2, rotateBackupsWithPromotion cfg fs level = .ok fs2 →
      ∀ d, (e ∈ entriesOf fs2 d ↔ e ∈ entriesOf fs d)) ∧
    (∀ fs cur next d,
      (e ∈ entriesOf (Main.promotePair cfg fs cur next) d ↔ e ∈ entriesOf fs d)) ∧
    (∀ fs cur next d,
      (e ∈ entriesOf (Part001.promotePair cfg fs cur next) d ↔ e ∈ entriesOf fs d)) ∧
    (∀ fs d,
      (e ∈ entriesOf (runBackupRotationPhase cfg fs) d ↔ e ∈ entriesOf fs d)) ∧
    (∀ fs : DirFS, ∀ level,
      (vhdxNames (entriesOf fs (cfg.backupDirs level))).length ≤ cfg.keepVersions level →
      rotateBackupsWithPromotion cfg fs level = .ok (mkdirAll fs (cfg.backupDirs level))) := by
  refine ⟨?_, ?_, ?_, ?_, ?_⟩
  · intro fs level fs2 hok d
    exact mem_entriesOf_rotate cfg fs fs2 level e he hok d
  · intro fs cur next d
    exact mem_entriesOf_promotePair_main cfg fs cur next d e he
  · intro fs cur next d
    exact mem_entriesOf_promotePair_p1 cfg fs cur next d e he
  · intro fs d
    exact mem_entriesOf_cycle cfg e he fs d
  · intro fs level hle
    unfold rotateBackupsWithPromotion
    dsimp only
    rw [mkdirAll_apply_self]
    dsimp only
    rw [if_neg (by omega)]

/-- Witness for C10 with the non-artifact entry `notes.txt` sharing a tier
directory with two artifacts at keep count 1: it survives a rotate call
with its directory listed over capacity in raw entries. -/
theorem C10_non_vhdx_frame_witness :
    (∀ fs level fs2,
      rotateBackupsWithPromotion ⟨"", fun l => "/b/" ++ l, fun _ => 1⟩ fs level = .ok fs2 →
      ∀ d, ("notes.txt" ∈ entriesOf fs2 d ↔ "notes.txt" ∈ entriesOf fs d)) ∧
    (∀ fs cur next d,
      ("notes.txt" ∈ entriesOf (Main.promotePair ⟨"", fun l => "/b/" ++ l, fun _ => 1⟩ fs cur next) d ↔
        "notes.txt" ∈ entriesOf fs d)) ∧
    (∀ fs cur next d,
      ("notes.txt" ∈ entriesOf (Part001.promotePair ⟨"", fun l => "/b/" ++ l, fun _ => 1⟩ fs cur next) d ↔
        "notes.txt" ∈ entriesOf fs d)) ∧
    (∀ fs d,
      ("notes.txt" ∈ entriesOf (runBackupRotationPhase ⟨"", fun l => "/b/" ++ l, fun _ => 1⟩ fs) d ↔
        "notes.txt" ∈ entriesOf fs d)) ∧
    (∀ fs : DirFS, ∀ level,
      (vhdxNames (entriesOf fs (("/b/" ++ level : String)))).length ≤ 1 →
      rotateBackupsWithPromotion ⟨"", fun l => "/b/" ++ l, fun _ => 1⟩ fs level =
        .ok (mkdirAll fs ("/b/" ++ level))) :=
  C10_non_vhdx_frame ⟨"", fun l => "/b/" ++ l, fun _ => 1⟩ "notes.txt" (by decide)

end RotateBackup

namespace RotateBackup

theorem entriesOf_eq (fs : DirFS) (d : String) (es : List String)
    (h : fs d = some es) : entriesOf fs d = es := by
  unfold entriesOf
  rw [h]
  rfl

theorem promotePair_main_move (cfg : BackupConfig) (fs : DirFS) (cur next : String)
    (entries nextEntries : List String) (old : String) (rest : List String)
    (hcur : fs (cfg.backupDirs cur) = some entries)
    (hnext : fs (cfg.backupDirs next) = some nextEntries)
    (hnames : vhdxNames entries = old :: rest)
    (hgt : (vhdxNames entries).length > cfg.keepVersions cur)
    (hnocol : old ∉ nextEntries) :
    Main.promotePair cfg fs cur next =
      Function.update (Function.update fs (cfg.backupDirs cur) (some (entries.erase old)))
        (cfg.backupDirs next) (some (old :: nextEntries)) := by
  have hmk : mkdirAll fs (cfg.backupDirs next) = fs := mkdirAll_of_some _ _ _ hnext
  unfold Main.promotePair
  dsimp only
  rw [hmk, hcur]
  dsimp only
  rw [if_pos hgt, hnames]
  dsimp only
  rw [entriesOf_eq fs _ _ hnext, if_neg hnocol]
  unfold renameFile
  rw [hcur, hnext]

theorem promotePair_main_no_move (cfg : BackupConfig) (fs : DirFS) (cur next : String)
    (entries nextEntries : List String)
    (hcur : fs (cfg.backupDirs cur) = some entries)
    (hnext : fs (cfg.backupDirs next) = some nextEntries)
    (hle : (vhdxNames entries).length ≤ cfg.keepVersions cur) :
    Main.promotePair cfg fs cur next = fs := by
  have hmk : mkdirAll fs (cfg.backupDirs next) = fs := mkdirAll_of_some _ _ _ hnext
  unfold Main.promotePair
  dsimp only
  rw [hmk, hcur]
  dsimp only
  rw [if_neg (by omega)]

theorem promotePair_p1_move (cfg : BackupConfig) (fs : DirFS) (cur next : String)
    (entries nextEntries : List String) (old : String) (rest : List String)
    (hcur : fs (cfg.backupDirs cur) = some entries)
    (hnext : fs (cfg.backupDirs next) = some nextEntries)
    (hnames : vhdxNames entries = old :: rest)
    (hge : (vhdxNames entries).length ≥ cfg.keepVersions cur)
    (hnocol : old ∉ nextEntries) :
    Part001.promotePair cfg fs cur next =
      Function.update (Function.update fs (cfg.backupDirs cur) (some (entries.erase old)))
        (cfg.backupDirs next) (some (old :: nextEntries)) := by
  have hmk : mkdirAll fs (cfg.backupDirs next) = fs := mkdirAll_of_some _ _ _ hnext
  unfold Part001.promotePair
  dsimp only
  rw [hmk, hcur]
  dsimp only
  rw [if_pos hge, hnames]
  dsimp only
  rw [entriesOf_eq fs _ _ hnext, if_neg hnocol]
  unfold renameFile
  rw [hcur, hnext]

theorem promotePair_p1_no_move (cfg : BackupConfig) (fs : DirFS) (cur next : String)
    (entries nextEntries : List String)
    (hcur : fs (cfg.backupDirs cur) = some entries)
    (hnext : fs (cfg.backupDirs next) = some nextEntries)
    (hlt : (vhdxNames entries).length < cfg.keepVersions cur) :
    Part001.promotePair cfg fs cur next = fs := by
  have hmk : mkdirAll fs (cfg.backupDirs next) = fs := mkdirAll_of_some _ _ _ hnext
  unfold Part001.promotePair
  dsimp only
  rw [hmk, hcur]
  dsimp only
  rw [if_neg (by omega)]

end RotateBackup

namespace RotateBackup

/-- C2 counterexample: a `30m` tier holding exactly its keep count of
artifacts (count = keepCount = 2).  The claim says the main.go promoter
moves the oldest artifact in this state; the embedded `promoteBackup` of
src/main.go leaves both directories unchanged because its threshold test
is strict (`count > keepCount`). -/
theorem C2_promotion_threshold_counterexample :
    (⟨"", fun l => "/b/" ++ l, fun _ => 2⟩ : BackupConfig).keepVersions "30m" = 2 ∧
    (vhdxNames (entriesOf
      (fun d => if d = "/b/30m" then some ["a1.vhdx", "a2.vhdx"] else some [])
      "/b/30m")).length = 2 ∧
    Main.promotePair ⟨"", fun l => "/b/" ++ l, fun _ => 2⟩
      (fun d => if d = "/b/30m" then some ["a1.vhdx", "a2.vhdx"] else some [])
      "30m" "3h" "/b/30m" = some ["a1.vhdx", "a2.vhdx"] ∧
    Main.promotePair ⟨"", fun l => "/b/" ++ l, fun _ => 2⟩
      (fun d => if d = "/b/30m" then some ["a1.vhdx", "a2.vhdx"] else some [])
      "30m" "3h" "/b/3h" = some [] := by
  decide

/-- C2 amended: for an adjacent tier pair whose directories are distinct
and whose destination holds no same-named entry, the main.go
`promoteBackup` pair step promotes iff the `.vhdx` count strictly exceeds
keepCount(current) (the part_001 near-duplicate promotes at `>=`); when
it promotes it moves exactly the single oldest (lexicographically least)
artifact into the destination directory by rename, and the five-level
chain attempts only the four adjacent pairs, so nothing is ever promoted
out of the terminal tier `1d`. -/
theorem C2_promotion_amended (cfg : BackupConfig) (fs : DirFS) (cur next : String)
    (entries nextEntries : List String) (old : String) (rest : List String)
    (hne : cfg.backupDirs cur ≠ cfg.backupDirs next)
    (hcur : fs (cfg.backupDirs cur) = some entries)
    (hnext : fs (cfg.backupDirs next) = some nextEntries)
    (hnames : vhdxNames entries = old :: rest)
    (hnocol : old ∉ nextEntries) :
    ((vhdxNames entries).length > cfg.keepVersions cur →
      Main.promotePair cfg fs cur next (cfg.backupDirs cur) = some (entries.erase old) ∧
      Main.promotePair cfg fs cur next (cfg.backupDirs next) = some (old :: nextEntries)) ∧
    ((vhdxNames entries).length ≤ cfg.keepVersions cur →
      Main.promotePair cfg fs cur next = fs) ∧
    (∀ x ∈ vhdxNames entries, old ≤ x) ∧
    (∀ fs2 : DirFS, Main.promoteBackup cfg fs2 backupLevels =
      Main.promotePair cfg (Main.promotePair cfg (Main.promotePair cfg
        (Main.promotePair cfg fs2 "30m" "3h") "3h" "6h") "6h" "12h") "12h" "1d") := by
  refine ⟨?_, ?_, ?_, fun fs2 => rfl⟩
  · intro hgt
    rw [promotePair_main_move cfg fs cur next entries nextEntries old rest
      hcur hnext hnames hgt hnocol]
    constructor
    · rw [Function.update_noteq hne, Function.update_same]
    · rw [Function.update_same]
  · intro hle
    exact promotePair_main_no_move cfg fs cur next entries nextEntries hcur hnext hle
  · intro x hx
    rw [hnames] at hx
    have hs := vhdxNames_sorted entries
    rw [hnames, List.sorted_cons] at hs
    rcases List.mem_cons.mp hx with rfl | hxr
    · exact le_refl x
    · exact hs.1 x hxr

/-- Witness for C2 at a `30m` tier holding three artifacts with keep
count 2: the pair step moves exactly `a1.vhdx` into the `3h` directory. -/
theorem C2_promotion_amended_witness :
    (Main.promotePair ⟨"", fun l => "/b/" ++ l, fun _ => 2⟩
        (fun d => if d = "/b/30m" then some ["a1.vhdx", "a2.vhdx", "a3.vhdx"] else some [])
        "30m" "3h" ("/b/" ++ "30m") = some (["a1.vhdx", "a2.vhdx", "a3.vhdx"].erase "a1.vhdx") ∧
      Main.promotePair ⟨"", fun l => "/b/" ++ l, fun _ => 2⟩
        (fun d => if d = "/b/30m" then some ["a1.vhdx", "a2.vhdx", "a3.vhdx"] else some [])
        "30m" "3h" ("/b/" ++ "3h") = some ["a1.vhdx"]) ∧
    (∀ x ∈ vhdxNames ["a1.vhdx", "a2.vhdx", "a3.vhdx"], "a1.vhdx" ≤ x) :=
  have h := C2_promotion_amended ⟨"", fun l => "/b/" ++ l, fun _ => 2⟩
    (fun d => if d = "/b/30m" then some ["a1.vhdx", "a2.vhdx", "a3.vhdx"] else some [])
    "30m" "3h" ["a1.vhdx", "a2.vhdx", "a3.vhdx"] [] "a1.vhdx" ["a2.vhdx", "a3.vhdx"]
    (by decide) (by decide) (by decide) (by decide) (by decide)
  ⟨h.1 (by decide), h.2.2.1⟩

end RotateBackup

namespace RotateBackup

/-- C9: the two near-duplicate promoters decide identically whenever the
`.vhdx` count differs from keepCount(current); exactly at count =
keepCount the src/main.go version (threshold `>`) leaves the state
unchanged while the src/unnamed/part_001 version (threshold `>=`)
moves the single oldest artifact into the destination — one artifact of
difference in promotion timing. -/
theorem C9_threshold_refinement (cfg : BackupConfig) (fs : DirFS)
    (cur next : String) (entries nextEntries : List String) (old : String)
    (rest : List String)
    (hne : cfg.backupDirs cur ≠ cfg.backupDirs next)
    (hcur : fs (cfg.backupDirs cur) = some entries)
    (hnext : fs (cfg.backupDirs next) = some nextEntries)
    (hnames : vhdxNames entries = old :: rest)
    (hnocol : old ∉ nextEntries) :
    ((vhdxNames entries).length ≠ cfg.keepVersions cur →
      Part001.promotePair cfg fs cur next = Main.promotePair cfg fs cur next) ∧
    ((vhdxNames entries).length = cfg.keepVersions cur →
      Main.promotePair cfg fs cur next = fs ∧
      Part001.promotePair cfg fs cur next (cfg.backupDirs cur) =
        some (entries.erase old) ∧
      Part001.promotePair cfg fs cur next (cfg.backupDirs next) =
        some (old :: nextEntries)) := by
  constructor
  · intro hnk
    by_cases hgt : (vhdxNames entries).length > cfg.keepVersions cur
    · rw [promotePair_main_move cfg fs cur next entries nextEntries old rest
          hcur hnext hnames hgt hnocol,
        promotePair_p1_move cfg fs cur next entries nextEntries old rest
          hcur hnext hnames (Nat.le_of_lt hgt) hnocol]
    · rw [promotePair_main_no_move cfg fs cur next entries nextEntries hcur hnext
          (by omega),
        promotePair_p1_no_move cfg fs cur next entries nextEntries hcur hnext
          (by omega)]
  · intro hk
    refine ⟨promotePair_main_no_move cfg fs cur next entries nextEntries hcur hnext
      (by omega), ?_, ?_⟩
    · rw [promotePair_p1_move cfg fs cur next entries nextEntries old rest
          hcur hnext hnames (by omega) hnocol,
        Function.update_noteq hne, Function.update_same]
    · rw [promotePair_p1_move cfg fs cur next entries nextEntries old rest
          hcur hnext hnames (by omega) hnocol,
        Function.update_same]

/-- Witness for C9 at a tier holding exactly keepCount = 2 artifacts:
main.go's promoter leaves the state unchanged, part_001's moves
`a1.vhdx`. -/
theorem C9_threshold_refinement_witness :
    Main.promotePair ⟨"", fun l => "/b/" ++ l, fun _ => 2⟩
      (fun d => if d = "/b/30m" then some ["a1.vhdx", "a2.vhdx"] else some [])
      "30m" "3h" =
      (fun d => if d = "/b/30m" then some ["a1.vhdx", "a2.vhdx"] else some []) ∧
    Part001.promotePair ⟨"", fun l => "/b/" ++ l, fun _ => 2⟩
      (fun d => if d = "/b/30m" then some ["a1.vhdx", "a2.vhdx"] else some [])
      "30m" "3h" ("/b/" ++ "30m") = some (["a1.vhdx", "a2.vhdx"].erase "a1.vhdx") ∧
    Part001.promotePair ⟨"", fun l => "/b/" ++ l, fun _ => 2⟩
      (fun d => if d = "/b/30m" then some ["a1.vhdx", "a2.vhdx"] else some [])
      "30m" "3h" ("/b/" ++ "3h") = some ["a1.vhdx"] :=
  (C9_threshold_refinement ⟨"", fun l => "/b/" ++ l, fun _ => 2⟩
    (fun d => if d = "/b/30m" then some ["a1.vhdx", "a2.vhdx"] else some [])
    "30m" "3h" ["a1.vhdx", "a2.vhdx"] [] "a1.vhdx" ["a2.vhdx"]
    (by decide) (by decide) (by decide) (by decide) (by decide)).2 (by decide)

/-- C4 counterexample: a `30m` tier holding exactly keepCount = 2
artifacts.  The claim says one full promote-then-rotate cycle moves the
oldest artifact up; the embedded cycle of src/main.go leaves everything
in place, because `promoteBackup` there requires the count to strictly
exceed the keep count. -/
theorem C4_ordering_counterexample :
    (vhdxNames (entriesOf
      (fun d => if d = "/b/30m" then some ["a1.vhdx", "a2.vhdx"] else some [])
      "/b/30m")).length = 2 ∧
    (⟨"", fun l => "/b/" ++ l, fun _ => 2⟩ : BackupConfig).keepVersions "30m" = 2 ∧
    entriesOf (runBackupRotationPhase ⟨"", fun l => "/b/" ++ l, fun _ => 2⟩
      (fun d => if d = "/b/30m" then some ["a1.vhdx", "a2.vhdx"] else some []))
      "/b/3h" = [] ∧
    "a1.vhdx" ∈ entriesOf (runBackupRotationPhase ⟨"", fun l => "/b/" ++ l, fun _ => 2⟩
      (fun d => if d = "/b/30m" then some ["a1.vhdx", "a2.vhdx"] else some []))
      "/b/30m" := by
  decide

/-- C4 amended: within one cycle the promotion sweep over the whole chain
runs before any rotation deletion (structurally, the cycle is the
rotation fold applied after `promoteBackup`); and starting from a tier
holding keepCount + 1 artifacts — strictly above the main.go threshold —
one full cycle moves the oldest artifact into the next coarser tier,
where that tier's rotation in the same cycle does not delete it. -/
theorem C4_promote_before_rotate_amended :
    (∀ (cfg : BackupConfig) (fs : DirFS),
      runBackupRotationPhase cfg fs =
        rotateAllLevels cfg (Main.promoteBackup cfg fs backupLevels) backupLevels) ∧
    entriesOf (runBackupRotationPhase ⟨"", fun l => "/b/" ++ l, fun _ => 2⟩
      (fun d => if d = "/b/30m" then some ["a1.vhdx", "a2.vhdx", "a3.vhdx"]
        else some [])) "/b/3h" = ["a1.vhdx"] ∧
    entriesOf (runBackupRotationPhase ⟨"", fun l => "/b/" ++ l, fun _ => 2⟩
      (fun d => if d = "/b/30m" then some ["a1.vhdx", "a2.vhdx", "a3.vhdx"]
        else some [])) "/b/30m" = ["a2.vhdx", "a3.vhdx"] ∧
    "a1.vhdx" ∉ entriesOf (runBackupRotationPhase ⟨"", fun l => "/b/" ++ l, fun _ => 2⟩
      (fun d => if d = "/b/30m" then some ["a1.vhdx", "a2.vhdx", "a3.vhdx"]
        else some [])) "/b/30m" :=
  ⟨fun cfg fs => rfl, by decide, by decide, by decide⟩

end RotateBackup
